import Mathlib

/-!
Verification of the learner layer of the i3 repository (`i3/learn.py`).

The Python source is shallowly embedded: contexts (the `params` tuples) become
lists of integers, Python's `dict`/`defaultdict` keyed by context tuples
becomes an association list, Python list indexing (including the wrap-around
semantics of negative indices, and `IndexError` on out-of-range indices)
becomes `pyGet`/`pySet` returning `Option`, and true division of counts
becomes exact division in `ℚ`.  External library objects (sklearn models,
nearest-neighbor indices, exact Gibbs distributions) are black boxes: they are
type parameters together with explicitly passed query functions.
-/

/-- A context (`params` in the source): an ordered tuple of discrete values. -/
abbrev Context := List Int

/-- Python's index resolution for a sequence of length `n`: a negative index
wraps by `n`. -/
def pyIdx (n : Nat) (i : Int) : Int :=
  if i < 0 then i + n else i

/-- Python list read `l[i]`: a negative index `i` wraps to `len l + i`;
an index outside `[-len l, len l)` raises `IndexError`, modelled as `none`. -/
def pyGet {α : Type} (l : List α) (i : Int) : Option α :=
  if 0 ≤ pyIdx l.length i then l.get? (pyIdx l.length i).toNat else none

/-- Python list write `l[i] = x`, with the same index semantics as `pyGet`. -/
def pySet {α : Type} (l : List α) (i : Int) (x : α) : Option (List α) :=
  if 0 ≤ pyIdx l.length i ∧ pyIdx l.length i < (l.length : Int) then
    some (l.set (pyIdx l.length i).toNat x)
  else none

/-- Lookup in a Python dict keyed by context tuples (association list). -/
def lookupCtx {α : Type} : List (Context × α) → Context → Option α
  | [], _ => none
  | (k, v) :: rest, c => if k = c then some v else lookupCtx rest c

/-- Python dict assignment `d[c] = v`: replaces the existing entry for `c`,
or appends a new one. -/
def storeCtx {α : Type} : List (Context × α) → Context → α → List (Context × α)
  | [], c, v => [(c, v)]
  | (k, w) :: rest, c, v =>
    if k = c then (c, v) :: rest else (k, w) :: storeCtx rest c v

/-- The support `[0, 1, ..., n-1]` used throughout the repository
(node domains are `range(domain_size)`). -/
def rangeSupport (n : Nat) : List Int :=
  (List.range n).map Nat.cast

/-- The `CountLearner` from the source: a declared support and a
`defaultdict` from context tuples to count vectors, where a missing context
defaults to the all-ones vector `[1] * len(support)` (Laplace smoothing). -/
structure CountLearner where
  _support : List Int
  counts : List (Context × List Nat)
  deriving DecidableEq

/-- A freshly constructed `CountLearner(support, rng)`: no stored counts. -/
def CountLearner.fresh (support : List Int) : CountLearner :=
  ⟨support, []⟩

/-- The count vector `self.counts[tuple(params)]`: the stored vector, or the
defaultdict default `[1] * len(support)`. -/
def CountLearner.countsFor (L : CountLearner) (params : Context) : List Nat :=
  (lookupCtx L.counts params).getD (List.replicate L._support.length 1)

/-- The state mutation performed by merely reading `self.counts[tuple(params)]`
on a `defaultdict`: a missing context has its default vector materialized. -/
def CountLearner.touch (L : CountLearner) (params : Context) : CountLearner :=
  match lookupCtx L.counts params with
  | some _ => L
  | none =>
    { L with counts := storeCtx L.counts params (List.replicate L._support.length 1) }

/-- The value computed by `CountLearner.log_probability` before `math.log` is
applied: `counts[value] / sum(counts)` as an exact rational.  `none` models the
`IndexError` on a bad `value` and the `ZeroDivisionError` on an empty count
vector.  The claims about `log_probability` are stated by applying `Real.log`
to this rational. -/
def CountLearner.probability (L : CountLearner) (params : Context) (value : Int) :
    Option ℚ :=
  (pyGet (L.countsFor params) value).bind fun cnt =>
    if (L.countsFor params).sum = 0 then none
    else some ((cnt : ℚ) / ((L.countsFor params).sum : ℚ))

/-- The `CountLearner.observe`: `self.counts[tuple(params)][value] += 1`, i.e. a
read of `counts[value]` followed by a write of the incremented value; `none`
models the `IndexError` raised when `value` is outside Python's index range. -/
def CountLearner.observe (L : CountLearner) (params : Context) (value : Int) :
    Option CountLearner :=
  (pyGet (L.countsFor params) value).bind fun cnt =>
    (pySet (L.countsFor params) value (cnt + 1)).map fun cs =>
      { L with counts := storeCtx L.counts params cs }

/-- The `CountLearner.support`: the fixed declared support, independent of context. -/
def CountLearner.support (L : CountLearner) (_params : Context) : List Int :=
  L._support

/-- Run a sequence of `observe` calls; `none` as soon as one raises. -/
def CountLearner.observeAll (L : CountLearner) :
    List (Context × Int) → Option CountLearner
  | [] => some L
  | (c, v) :: rest => (L.observe c v).bind fun Lnext => Lnext.observeAll rest

/-- Well-formedness of a `CountLearner` with a support of size `n`: every
stored count vector has length `n` and holds only positive counts.  This is
the Laplace-smoothing invariant; it holds for the fresh learner and is
preserved by `observe`. -/
def CountLearner.WF (n : Nat) (L : CountLearner) : Prop :=
  L._support.length = n ∧ ∀ e ∈ L.counts, e.2.length = n ∧ ∀ x ∈ e.2, 1 ≤ x

/-- The Python exceptions (and sklearn exception) that the embedded code can
raise, named after the concrete classes the interpreter would use. -/
inductive PyError where
  | indexError
  | nameError
  | attributeError
  | notFittedError
  | typeError
  deriving DecidableEq

/-- The `GibbsLearner` from the source: its only state is the map from context
tuples to precomputed exact distributions, built at construction by
`gibbs.all_gibbs_distributions`.  The distribution objects are external black
boxes, so their type `D` is a parameter. -/
structure GibbsLearner (D : Type) where
  gibbs_distributions : List (Context × D)

/-- The `GibbsLearner.observe`: the body is `pass`; the learner is returned
unchanged. -/
def GibbsLearner.observe {D : Type} (L : GibbsLearner D) (_params : Context)
    (_value : Int) : GibbsLearner D :=
  L

/-- Run a sequence of `GibbsLearner.observe` calls. -/
def GibbsLearner.observeAll {D : Type} (L : GibbsLearner D) :
    List (Context × Int) → GibbsLearner D
  | [] => L
  | (c, v) :: rest => (L.observe c v).observeAll rest

/-- The dictionary access `self.gibbs_distributions[tuple(params)]` shared by
the three query methods; `none` models the `KeyError` on an unknown context. -/
def GibbsLearner.distFor {D : Type} (L : GibbsLearner D) (params : Context) :
    Option D :=
  lookupCtx L.gibbs_distributions params

/-- The `GibbsLearner.log_probability`: delegates to the precomputed distribution
for the context; the distribution's own `log_probability` method is the black
box `lp`. -/
def GibbsLearner.log_probability {D : Type} (L : GibbsLearner D)
    (lp : D → Int → ℝ) (params : Context) (value : Int) : Option ℝ :=
  (L.distFor params).map fun d => lp d value

/-- The `GibbsLearner.sample`: delegates to the precomputed distribution, whose
`sample` method is the black box `smp`. -/
def GibbsLearner.sample {D : Type} (L : GibbsLearner D) (smp : D → Int)
    (params : Context) : Option Int :=
  (L.distFor params).map fun d => smp d

/-- The `GibbsLearner.support`: delegates to the precomputed distribution, whose
`support` method is the black box `sup`. -/
def GibbsLearner.support {D : Type} (L : GibbsLearner D) (sup : D → List Int)
    (params : Context) : Option (List Int) :=
  (L.distFor params).map fun d => sup d

/-- The state of an sklearn `LinearRegression` object: `fitted` is `none`
until a successful `fit` stores a fitted model of black-box type `M`. -/
structure SkLinearRegression (M : Type) where
  fitted : Option M

/-- sklearn's `predict` on a `LinearRegression` object: raises
`NotFittedError` when no fit has happened; otherwise applies the fitted
model, whose prediction function is the black box `predictFn`. -/
def SkLinearRegression.predict {M : Type} (m : SkLinearRegression M)
    (predictFn : M → List ℚ → ℚ) (params : List ℚ) : Except PyError ℚ :=
  match m.fitted with
  | none => Except.error PyError.notFittedError
  | some mdl => Except.ok (predictFn mdl params)

/-- The `LinRegLearner` from the source: accumulated `(params, value)` pairs and
`self.learner`, which is `None` until `finalize` constructs a
`LinearRegression` object. -/
structure LinRegLearner (M : Type) where
  observations : List (List ℚ × ℚ)
  learner : Option (SkLinearRegression M)

/-- A freshly constructed `LinRegLearner(rng)`. -/
def LinRegLearner.fresh (M : Type) : LinRegLearner M :=
  ⟨[], none⟩

/-- The `LinRegLearner.observe`: appends the pair and resets `self.learner` to
`None`. -/
def LinRegLearner.observe {M : Type} (L : LinRegLearner M) (params : List ℚ)
    (value : ℚ) : LinRegLearner M :=
  { observations := L.observations ++ [(params, value)], learner := none }

/-- The `LinRegLearner.finalize` from the source: when `self.learner is None` it
first assigns `self.learner = linear_model.LinearRegression()` (an unfitted
model) and then evaluates `[o[0] for o in observations]`, where the bare name
`observations` is not bound in any enclosing scope — Python raises
`NameError` before `fit` is ever reached.  The result is the post-call state
together with the exception, if one was raised. -/
def LinRegLearner.finalize {M : Type} (L : LinRegLearner M) :
    LinRegLearner M × Option PyError :=
  match L.learner with
  | some _ => (L, none)
  | none => ({ L with learner := some ⟨none⟩ }, some PyError.nameError)

/-- The `LinRegLearner.sample`: `self.learner.predict(params)`.  When
`self.learner` is `None` the attribute access raises `AttributeError`; when it
is an unfitted model sklearn raises `NotFittedError`. -/
def LinRegLearner.sample {M : Type} (L : LinRegLearner M)
    (predictFn : M → List ℚ → ℚ) (params : List ℚ) : Except PyError ℚ :=
  match L.learner with
  | none => Except.error PyError.attributeError
  | some m => m.predict predictFn params

/-- The `LinRegLearner.log_probability`: the negative squared prediction error
`-(pred - value)**2`, with the same failure modes as `sample`. -/
def LinRegLearner.log_probability {M : Type} (L : LinRegLearner M)
    (predictFn : M → List ℚ → ℚ) (params : List ℚ) (value : ℚ) :
    Except PyError ℚ :=
  match L.learner with
  | none => Except.error PyError.attributeError
  | some m => (m.predict predictFn params).map fun pred => -((pred - value) ^ 2)

/-- One call in a `LinRegLearner` session. -/
inductive LinRegOp where
  | obs (params : List ℚ) (value : ℚ)
  | fin

/-- Run a sequence of `observe`/`finalize` calls on a `LinRegLearner`,
returning the final state together with a flag recording whether any
`finalize` call completed without raising. -/
def LinRegLearner.runOps {M : Type} (L : LinRegLearner M) :
    List LinRegOp → LinRegLearner M × Bool
  | [] => (L, false)
  | LinRegOp.obs c v :: rest => (L.observe c v).runOps rest
  | LinRegOp.fin :: rest =>
    (((L.finalize).1.runOps rest).1,
      (L.finalize).2.isNone || ((L.finalize).1.runOps rest).2)

/-- The `KnnGaussianLearner` fields as assigned in its constructor body: the
neighbor count `k`, the accumulated pairs, and the nearest-neighbor index
`self.nn` (`None` until `finalize` builds one; the index object is the
black-box type `N`).  Note the class never assigns a field named `pairs`. -/
structure KnnGaussianLearner (N : Type) where
  k : Nat
  observations : List (List ℚ × ℚ)
  nn : Option N

/-- The `KnnGaussianLearner.__init__` from the source: its first statement is
`super(LinRegLearner, self).__init__(rng)`, but `KnnGaussianLearner` is not a
subclass of `LinRegLearner`, so Python raises `TypeError` and no instance is
ever constructed. -/
def KnnGaussianLearner.init (N : Type) (_k : Nat) :
    Except PyError (KnnGaussianLearner N) :=
  Except.error PyError.typeError

/-- The `KnnGaussianLearner.observe`: appends the pair and invalidates the index. -/
def KnnGaussianLearner.observe {N : Type} (L : KnnGaussianLearner N)
    (params : List ℚ) (value : ℚ) : KnnGaussianLearner N :=
  { L with observations := L.observations ++ [(params, value)], nn := none }

/-- The `KnnGaussianLearner.finalize`: when no index is present, collects the
truthy (non-empty) contexts and, if any exist, fits a nearest-neighbor index
over them (the external fit is the black box `fit`). -/
def KnnGaussianLearner.finalize {N : Type} (fit : List (List ℚ) → N)
    (L : KnnGaussianLearner N) : KnnGaussianLearner N :=
  match L.nn with
  | some _ => L
  | none =>
    let xs := (L.observations.map Prod.fst).filter fun x => !x.isEmpty
    if xs.isEmpty then L else { L with nn := some (fit xs) }

/-- The `KnnGaussianLearner.get_knns` from the source: the call
`self.nn.kneighbors(params, min(self.k, len(self.pairs)), ...)` evaluates
`len(self.pairs)` among its arguments, and the class has no attribute
`pairs`, so every call raises `AttributeError` (when `self.nn` is `None` the
attribute access `self.nn.kneighbors` raises `AttributeError` as well). -/
def KnnGaussianLearner.get_knns {N : Type} (_L : KnnGaussianLearner N)
    (_params : List ℚ) : Except PyError (List (List ℚ × ℚ) × List ℚ) :=
  Except.error PyError.attributeError

/-- The `identity_transformer` from the source. -/
def identity_transformer : List ℚ → List ℚ :=
  fun xs => xs

/-- The `square_transformer` from the source:
`[xi*xj for xi in xs for xj in xs]`. -/
def square_transformer : List ℚ → List ℚ :=
  fun xs => xs.flatMap fun xi => xs.map fun xj => xi * xj

/-- The `LogisticRegressionLearner` from the source: the sklearn classifier
object (black-box type `M`), the buffered transformed inputs and labels, the
declared support, and the input transform. -/
structure LogisticRegressionLearner (M : Type) where
  predictor : M
  inputs : List (List ℚ)
  outputs : List Int
  _support : List Int
  transform_inputs : List ℚ → List ℚ

/-- The `LogisticRegressionLearner.observe`: transforms the context and buffers
the (features, label) pair. -/
def LogisticRegressionLearner.observe {M : Type}
    (L : LogisticRegressionLearner M) (params : List ℚ) (value : Int) :
    LogisticRegressionLearner M :=
  { L with inputs := L.inputs ++ [L.transform_inputs params],
           outputs := L.outputs ++ [value] }

/-- The `LogisticRegressionLearner.log_probability`: transforms the context,
obtains the classifier's per-class probability row (`predict_proba`, a black
box), and returns `probs[value]` — the probability itself, not its
logarithm.  Indexing follows Python/numpy semantics (`pyGet`). -/
def LogisticRegressionLearner.log_probability {M : Type}
    (L : LogisticRegressionLearner M) (predict_proba : M → List ℚ → List ℚ)
    (params : List ℚ) (value : Int) : Option ℚ :=
  pyGet (predict_proba L.predictor (L.transform_inputs params)) value

/-- Reading a Python list at a natural index is plain list indexing. -/
theorem pyGet_natCast {α : Type} (l : List α) (k : Nat) :
    pyGet l (k : Int) = l.get? k := by
  have h1 : ¬ ((k : Int) < 0) := by omega
  have h2 : ((k : Int)).toNat = k := by omega
  simp [pyGet, pyIdx, h1, h2]

/-- The `l[i]` raises `IndexError` exactly when `i` is outside `[-len l, len l)`. -/
theorem pyGet_eq_none_iff {α : Type} (l : List α) (i : Int) :
    pyGet l i = none ↔ i < -(l.length : Int) ∨ (l.length : Int) ≤ i := by
  unfold pyGet pyIdx
  by_cases h1 : i < 0
  · simp only [if_pos h1]
    by_cases h2 : (0 : Int) ≤ i + l.length
    · rw [if_pos h2, List.get?_eq_none]
      omega
    · rw [if_neg h2]
      constructor
      · intro _
        omega
      · intro _
        rfl
  · simp only [if_neg h1]
    rw [if_pos (by omega : (0 : Int) ≤ i), List.get?_eq_none]
    omega

/-- A successful Python read returns an element of the list. -/
theorem pyGet_mem {α : Type} {l : List α} {i : Int} {a : α}
    (h : pyGet l i = some a) : a ∈ l := by
  unfold pyGet at h
  split_ifs at h
  exact List.get?_mem h

/-- When the read `l[i]` succeeds, the write `l[i] = x` succeeds as well and
updates the same resolved position. -/
theorem pySet_of_pyGet {α : Type} {l : List α} {i : Int} {a : α} (x : α)
    (h : pyGet l i = some a) :
    pySet l i x = some (l.set (pyIdx l.length i).toNat x) := by
  unfold pyGet at h
  unfold pySet
  split_ifs at h ⊢ with h1 h2
  · rfl
  · exfalso
    obtain ⟨hlt, -⟩ := List.get?_eq_some.mp h
    omega

/-- Looking up the key just stored finds the stored value. -/
theorem lookupCtx_storeCtx_self {α : Type} (m : List (Context × α))
    (c : Context) (v : α) : lookupCtx (storeCtx m c v) c = some v := by
  induction m with
  | nil => simp [storeCtx, lookupCtx]
  | cons e rest ih =>
    obtain ⟨k, w⟩ := e
    by_cases hk : k = c
    · simp [storeCtx, hk, lookupCtx]
    · simp [storeCtx, hk, lookupCtx, ih]

/-- Storing under one key leaves lookups of other keys unchanged. -/
theorem lookupCtx_storeCtx_ne {α : Type} (m : List (Context × α))
    {c c' : Context} (v : α) (h : c' ≠ c) :
    lookupCtx (storeCtx m c v) c' = lookupCtx m c' := by
  induction m with
  | nil =>
    have hcc : ¬ (c = c') := fun hh => h hh.symm
    simp [storeCtx, lookupCtx, hcc]
  | cons e rest ih =>
    obtain ⟨k, w⟩ := e
    by_cases hk : k = c
    · have h1 : ¬ (c = c') := fun hh => h hh.symm
      have h2 : ¬ (k = c') := fun hh => h (hh.symm.trans hk)
      simp only [storeCtx, if_pos hk, lookupCtx, if_neg h1, if_neg h2]
    · by_cases hk' : k = c'
      · simp only [storeCtx, if_neg hk, lookupCtx, if_pos hk']
      · simp only [storeCtx, if_neg hk, lookupCtx, if_neg hk', ih]

/-- Every entry of a store result is the new entry or an old one. -/
theorem mem_storeCtx {α : Type} {m : List (Context × α)} {c : Context}
    {v : α} {e : Context × α} (h : e ∈ storeCtx m c v) :
    e = (c, v) ∨ e ∈ m := by
  induction m with
  | nil => simpa [storeCtx] using h
  | cons p rest ih =>
    obtain ⟨k, w⟩ := p
    by_cases hk : k = c
    · simp only [storeCtx, if_pos hk] at h
      rcases List.mem_cons.mp h with h1 | h1
      · exact Or.inl h1
      · exact Or.inr (List.mem_cons_of_mem _ h1)
    · simp only [storeCtx, if_neg hk] at h
      rcases List.mem_cons.mp h with h1 | h1
      · exact Or.inr (by simp [h1])
      · rcases ih h1 with h2 | h2
        · exact Or.inl h2
        · exact Or.inr (List.mem_cons_of_mem _ h2)

/-- A successful lookup exhibits an entry of the association list. -/
theorem lookupCtx_mem {α : Type} {m : List (Context × α)} {c : Context}
    {v : α} (h : lookupCtx m c = some v) : (c, v) ∈ m := by
  induction m with
  | nil => simp [lookupCtx] at h
  | cons p rest ih =>
    obtain ⟨k, w⟩ := p
    by_cases hk : k = c
    · simp only [lookupCtx, if_pos hk] at h
      have hv : w = v := Option.some.inj h
      rw [← hk, ← hv]
      exact List.mem_cons_self _ _
    · simp only [lookupCtx, if_neg hk] at h
      exact List.mem_cons_of_mem _ (ih h)

/-- A list of positive naturals is at least as long as its sum is large. -/
theorem length_le_sum (l : List Nat) (h : ∀ x ∈ l, 1 ≤ x) :
    l.length ≤ l.sum := by
  induction l with
  | nil => simp
  | cons a t ih =>
    have ha := h a (by simp)
    have ht := ih fun x hx => h x (by simp [hx])
    simp only [List.length_cons, List.sum_cons]
    omega

/-- In a list of positive naturals, one entry plus the remaining length is at
most the sum (so no entry reaches the full sum when the list has length ≥ 2). -/
theorem getD_add_le_sum (l : List Nat) (h : ∀ x ∈ l, 1 ≤ x) (i : Nat)
    (hi : i < l.length) :
    (l.get? i).getD 0 + (l.length - 1) ≤ l.sum := by
  induction l generalizing i with
  | nil => simp at hi
  | cons a t ih =>
    cases i with
    | zero =>
      have ht := length_le_sum t fun x hx => h x (by simp [hx])
      simp only [List.get?_cons_zero, Option.getD_some, List.length_cons,
        List.sum_cons]
      omega
    | succ i =>
      have hi' : i < t.length := by simpa using hi
      have ha := h a (by simp)
      have ht := ih (fun x hx => h x (by simp [hx])) i hi'
      simp only [List.get?_cons_succ, List.length_cons, List.sum_cons]
      omega

/-- Summing a list of naturals by indices over `range`. -/
theorem sum_map_range_getD (cs : List Nat) :
    ((List.range cs.length).map fun i => (((cs.get? i).getD 0 : Nat) : ℚ)).sum
      = (cs.sum : ℚ) := by
  induction cs with
  | nil => simp
  | cons a t ih =>
    rw [List.length_cons, List.range_succ_eq_map, List.map_cons, List.map_map,
      List.sum_cons]
    have hcmp :
        (List.range t.length).map
            ((fun i => ((((a :: t).get? i).getD 0 : Nat) : ℚ)) ∘ Nat.succ)
          = (List.range t.length).map fun i => (((t.get? i).getD 0 : Nat) : ℚ) := by
      apply List.map_congr_left
      intro i _
      simp [Function.comp]
    rw [hcmp, ih]
    simp only [List.get?_cons_zero, Option.getD_some, List.sum_cons]
    push_cast
    ring

/-- The fresh `CountLearner` satisfies the smoothing invariant. -/
theorem WF_fresh (support : List Int) :
    (CountLearner.fresh support).WF support.length := by
  constructor
  · rfl
  · simp [CountLearner.fresh]

/-- Under the invariant, every count vector has length `n`. -/
theorem CountLearner.WF.countsFor_length {n : Nat} {L : CountLearner}
    (h : L.WF n) (c : Context) : (L.countsFor c).length = n := by
  unfold CountLearner.countsFor
  cases hl : lookupCtx L.counts c with
  | none => simp [h.1]
  | some cs => simpa using (h.2 _ (lookupCtx_mem hl)).1

/-- Under the invariant, every count is at least one. -/
theorem CountLearner.WF.countsFor_pos {n : Nat} {L : CountLearner}
    (h : L.WF n) (c : Context) : ∀ x ∈ L.countsFor c, 1 ≤ x := by
  unfold CountLearner.countsFor
  cases hl : lookupCtx L.counts c with
  | none =>
    intro x hx
    simp only [Option.getD_none] at hx
    rw [List.eq_of_mem_replicate hx]
  | some cs =>
    intro x hx
    exact (h.2 _ (lookupCtx_mem hl)).2 x (by simpa using hx)

/-- Inversion for a successful `observe`: the read count and the stored
updated vector. -/
theorem observe_eq_some {L L' : CountLearner} {c : Context} {v : Int}
    (h : L.observe c v = some L') :
    ∃ cnt, pyGet (L.countsFor c) v = some cnt ∧
      L' = CountLearner.mk L._support
        (storeCtx L.counts c
          ((L.countsFor c).set (pyIdx (L.countsFor c).length v).toNat (cnt + 1))) := by
  unfold CountLearner.observe at h
  cases hg : pyGet (L.countsFor c) v with
  | none => rw [hg] at h; simp at h
  | some cnt =>
    rw [hg] at h
    rw [Option.some_bind, pySet_of_pyGet (cnt + 1) hg] at h
    refine ⟨cnt, rfl, ?_⟩
    simpa using h.symm

/-- The `observe` preserves the smoothing invariant. -/
theorem WF_observe {n : Nat} {L L' : CountLearner} {c : Context} {v : Int}
    (hWF : L.WF n) (h : L.observe c v = some L') : L'.WF n := by
  obtain ⟨cnt, hg, rfl⟩ := observe_eq_some h
  refine ⟨hWF.1, ?_⟩
  intro e he
  rcases mem_storeCtx he with rfl | hm
  · constructor
    · simpa [List.length_set] using hWF.countsFor_length c
    · intro x hx
      rcases List.mem_or_eq_of_mem_set hx with hx' | rfl
      · exact hWF.countsFor_pos c x hx'
      · omega
  · exact hWF.2 e hm

/-- A sequence of successful `observe` calls preserves the invariant. -/
theorem WF_observeAll {n : Nat} {L L' : CountLearner}
    {obs : List (Context × Int)} (hWF : L.WF n)
    (h : L.observeAll obs = some L') : L'.WF n := by
  induction obs generalizing L with
  | nil =>
    simp only [CountLearner.observeAll, Option.some.injEq] at h
    rwa [← h]
  | cons p rest ih =>
    obtain ⟨c, v⟩ := p
    unfold CountLearner.observeAll at h
    cases hob : L.observe c v with
    | none => rw [hob] at h; simp at h
    | some L1 =>
      rw [hob, Option.some_bind] at h
      exact ih (WF_observe hWF hob) h

/-- The `observe` never changes the declared support. -/
theorem observeAll_support {L L' : CountLearner} {obs : List (Context × Int)}
    (h : L.observeAll obs = some L') : L'._support = L._support := by
  induction obs generalizing L with
  | nil =>
    simp only [CountLearner.observeAll, Option.some.injEq] at h
    rw [← h]
  | cons p rest ih =>
    obtain ⟨c, v⟩ := p
    unfold CountLearner.observeAll at h
    cases hob : L.observe c v with
    | none => rw [hob] at h; simp at h
    | some L1 =>
      rw [hob, Option.some_bind] at h
      obtain ⟨cnt, -, rfl⟩ := observe_eq_some hob
      simpa using ih h

/-- Contexts never observed have no stored entry. -/
theorem observeAll_lookup_none {L L' : CountLearner}
    {obs : List (Context × Int)} {c : Context}
    (h : L.observeAll obs = some L') (hc : ∀ p ∈ obs, p.1 ≠ c)
    (h0 : lookupCtx L.counts c = none) : lookupCtx L'.counts c = none := by
  induction obs generalizing L with
  | nil =>
    simp only [CountLearner.observeAll, Option.some.injEq] at h
    rwa [← h]
  | cons p rest ih =>
    obtain ⟨a, v⟩ := p
    unfold CountLearner.observeAll at h
    cases hob : L.observe a v with
    | none => rw [hob] at h; simp at h
    | some L1 =>
      rw [hob, Option.some_bind] at h
      obtain ⟨cnt, -, rfl⟩ := observe_eq_some hob
      refine ih h (fun p hp => hc p (by simp [hp])) ?_
      have hac : c ≠ a := fun hh => hc (a, v) (by simp) (by simp [hh])
      simpa [lookupCtx_storeCtx_ne _ _ hac] using h0

/-- Under the invariant, `probability` at a valid natural index is the count
divided by the total. -/
theorem probability_eq {n : Nat} {L : CountLearner} (hWF : L.WF n)
    (c : Context) {k : Nat} (hk : k < n) :
    ∃ cnt : Nat, (L.countsFor c).get? k = some cnt ∧ 1 ≤ cnt ∧
      L.probability c (k : Int)
        = some ((cnt : ℚ) / ((L.countsFor c).sum : ℚ)) := by
  have hlen := hWF.countsFor_length c
  have hk' : k < (L.countsFor c).length := by omega
  have hg : (L.countsFor c).get? k = some ((L.countsFor c).get ⟨k, hk'⟩) :=
    List.get?_eq_get hk'
  have hpos : 1 ≤ (L.countsFor c).get ⟨k, hk'⟩ :=
    hWF.countsFor_pos c _ (List.get_mem _ _ _)
  refine ⟨(L.countsFor c).get ⟨k, hk'⟩, hg, hpos, ?_⟩
  unfold CountLearner.probability
  rw [pyGet_natCast, hg]
  have hsum : (L.countsFor c).sum ≠ 0 := by
    have h1 := length_le_sum _ (hWF.countsFor_pos c)
    omega
  simp [hsum]

/-- Claim C1: for a CountLearner with support `[0,1,2]`, after observing value
`1` in context `(0,)` twice the count vector is `[1,3,1]`, so
`log_probability((0,), 1) = log(3/5)` and `log_probability((0,), 0) = log(1/5)`. -/
theorem countLearner_concrete_example :
    (CountLearner.fresh [0, 1, 2]).observeAll [([0], 1), ([0], 1)]
        = some ⟨[0, 1, 2], [([0], [1, 3, 1])]⟩ ∧
    (CountLearner.mk [0, 1, 2] [([0], [1, 3, 1])]).probability [0] 1 = some (3 / 5) ∧
    (CountLearner.mk [0, 1, 2] [([0], [1, 3, 1])]).probability [0] 0 = some (1 / 5) ∧
    Real.log (((3 / 5 : ℚ) : ℝ)) = Real.log (3 / 5) ∧
    Real.log (((1 / 5 : ℚ) : ℝ)) = Real.log (1 / 5) := by
  refine ⟨by decide, ?_, ?_, ?_, ?_⟩
  · simp [CountLearner.probability, CountLearner.countsFor, lookupCtx, pyGet, pyIdx]
  · simp [CountLearner.probability, CountLearner.countsFor, lookupCtx, pyGet, pyIdx]
  · norm_num
  · norm_num

/-- Claim C9: `GibbsLearner.observe` is a true no-op: after any sequence of
`observe` calls the internal state (the precomputed context-to-distribution
map) is identical, so every subsequent `log_probability`, `sample` and
`support` result is unchanged. -/
theorem gibbsLearner_observe_noop (D : Type) (L : GibbsLearner D)
    (obs : List (Context × Int)) :
    L.observeAll obs = L ∧
    (∀ lp : D → Int → ℝ, ∀ c v, (L.observeAll obs).log_probability lp c v
        = L.log_probability lp c v) ∧
    (∀ smp : D → Int, ∀ c, (L.observeAll obs).sample smp c = L.sample smp c) ∧
    (∀ sup : D → List Int, ∀ c, (L.observeAll obs).support sup c
        = L.support sup c) := by
  have hstate : L.observeAll obs = L := by
    induction obs with
    | nil => rfl
    | cons p rest ih =>
      obtain ⟨c, v⟩ := p
      simpa [GibbsLearner.observeAll, GibbsLearner.observe] using ih
  refine ⟨hstate, ?_, ?_, ?_⟩ <;> intros <;> rw [hstate]

/-- Claim C2 (code bug): whenever no fitted model is present,
`LinRegLearner.finalize` first installs a fresh unfitted `LinearRegression`
and then raises `NameError` on the undefined module-level name
`observations`; it never fits on the learner's own accumulated observations,
whether or not any exist. -/
theorem linRegLearner_finalize_name_error (M : Type)
    (obs : List (List ℚ × ℚ)) :
    (LinRegLearner.mk obs none : LinRegLearner M).finalize
      = (LinRegLearner.mk obs (some ⟨none⟩), some PyError.nameError) := rfl

/-- Claim C8 (code bug): `KnnGaussianLearner` cannot even be constructed (its
constructor calls `super(LinRegLearner, self).__init__`, raising `TypeError`),
and on any hand-built instance every `get_knns` call raises `AttributeError`
because the class has no attribute `pairs`; it never returns the claimed
`min(k, n)` nearest neighbors. -/
theorem knnGaussianLearner_defects (N : Type) (k : Nat)
    (L : KnnGaussianLearner N) (params : List ℚ) :
    KnnGaussianLearner.init N k = Except.error PyError.typeError ∧
    L.get_knns params = Except.error PyError.attributeError :=
  ⟨rfl, rfl⟩

/-- In every reachable `LinRegLearner` state the model slot holds either
`None` or an unfitted `LinearRegression`: `observe` clears the slot and
`finalize` raises `NameError` before ever calling `fit`. -/
theorem linReg_runOps_unfitted {M : Type} (ops : List LinRegOp)
    (L : LinRegLearner M)
    (h : L.learner = none ∨ L.learner = some ⟨none⟩) :
    (L.runOps ops).1.learner = none ∨
      (L.runOps ops).1.learner = some ⟨none⟩ := by
  induction ops generalizing L with
  | nil => exact h
  | cons op rest ih =>
    cases op with
    | obs c v => exact ih _ (Or.inl rfl)
    | fin =>
      have hfin : (L.finalize).1.learner = none ∨
          (L.finalize).1.learner = some ⟨none⟩ := by
        rcases h with h | h <;> simp [LinRegLearner.finalize, h]
      simpa [LinRegLearner.runOps] using ih (L.finalize).1 hfin

/-- Claim C7: on a `LinRegLearner` reached by a run in which no `finalize`
call succeeded, `sample` and `log_probability` always fail: with
`AttributeError` while the model slot is `None`, and with sklearn's
`NotFittedError` after a failed `finalize` left an unfitted model — both are
the spec's NotFittedError class (query before any successful fit). -/
theorem linRegLearner_query_before_fit (M : Type) (ops : List LinRegOp)
    (L : LinRegLearner M) (predictFn : M → List ℚ → ℚ) (params : List ℚ)
    (value : ℚ) (hrun : (LinRegLearner.fresh M).runOps ops = (L, false)) :
    (∃ e, L.sample predictFn params = Except.error e ∧
      (e = PyError.attributeError ∨ e = PyError.notFittedError)) ∧
    (∃ e, L.log_probability predictFn params value = Except.error e ∧
      (e = PyError.attributeError ∨ e = PyError.notFittedError)) := by
  have hL0 := linReg_runOps_unfitted ops (LinRegLearner.fresh M) (Or.inl rfl)
  rw [hrun] at hL0
  have hL : L.learner = none ∨ L.learner = some ⟨none⟩ := hL0
  rcases hL with h | h
  · exact ⟨⟨PyError.attributeError, by simp [LinRegLearner.sample, h],
      Or.inl rfl⟩,
      ⟨PyError.attributeError, by simp [LinRegLearner.log_probability, h],
      Or.inl rfl⟩⟩
  · exact ⟨⟨PyError.notFittedError,
      by simp [LinRegLearner.sample, h, SkLinearRegression.predict],
      Or.inr rfl⟩,
      ⟨PyError.notFittedError,
      by simp [LinRegLearner.log_probability, h, SkLinearRegression.predict,
        Except.map],
      Or.inr rfl⟩⟩

/-- Claim C7 witness: the fresh learner (empty run, no successful finalize)
at concrete inputs. -/
theorem linRegLearner_query_before_fit_witness :
    ((LinRegLearner.fresh Unit).runOps [] = (LinRegLearner.fresh Unit, false)) ∧
    ((∃ e, (LinRegLearner.fresh Unit).sample (fun _ _ => 0) []
        = Except.error e ∧
      (e = PyError.attributeError ∨ e = PyError.notFittedError)) ∧
    (∃ e, (LinRegLearner.fresh Unit).log_probability (fun _ _ => 0) [] 0
        = Except.error e ∧
      (e = PyError.attributeError ∨ e = PyError.notFittedError))) :=
  ⟨rfl, linRegLearner_query_before_fit Unit [] (LinRegLearner.fresh Unit)
    (fun _ _ => 0) [] 0 rfl⟩

/-- Membership in the range support is being a natural below `n`. -/
theorem mem_rangeSupport {n : Nat} {v : Int} :
    v ∈ rangeSupport n ↔ ∃ k : Nat, k < n ∧ v = (k : Int) := by
  constructor
  · intro hv
    simp only [rangeSupport, List.mem_map, List.mem_range] at hv
    obtain ⟨k, hk, he⟩ := hv
    exact ⟨k, hk, he.symm⟩
  · rintro ⟨k, hk, rfl⟩
    simp only [rangeSupport, List.mem_map, List.mem_range]
    exact ⟨k, hk, rfl⟩

/-- Claim C4: after a successful `finalize` — whose assertions force the
declared support to equal the classifier's class range `0..n-1` —
`log_probability` returns the classifier's estimated probability for class
`value` directly: one of the entries of the `predict_proba` row, a number in
[0, 1], not its logarithm. -/
theorem logRegLearner_prob_direct (M : Type) (L : LogisticRegressionLearner M)
    (predict_proba : M → List ℚ → List ℚ) (n : Nat) (params : List ℚ)
    (value : Int) (hsupp : L._support = rangeSupport n)
    (hv : value ∈ L._support)
    (hlen : (predict_proba L.predictor (L.transform_inputs params)).length = n)
    (hprob : ∀ p ∈ predict_proba L.predictor (L.transform_inputs params),
      0 ≤ p ∧ p ≤ 1) :
    ∃ p, L.log_probability predict_proba params value = some p ∧
      p ∈ predict_proba L.predictor (L.transform_inputs params) ∧
      0 ≤ p ∧ p ≤ 1 := by
  rw [hsupp] at hv
  obtain ⟨k, hk, rfl⟩ := mem_rangeSupport.mp hv
  have hk' : k < (predict_proba L.predictor (L.transform_inputs params)).length := by
    omega
  have hmem := List.get_mem (predict_proba L.predictor (L.transform_inputs params)) k hk'
  refine ⟨(predict_proba L.predictor (L.transform_inputs params)).get ⟨k, hk'⟩,
    ?_, hmem, (hprob _ hmem).1, (hprob _ hmem).2⟩
  unfold LogisticRegressionLearner.log_probability
  rw [pyGet_natCast]
  exact List.get?_eq_get hk'

/-- Claim C4 witness: a concrete fitted classifier instance. -/
theorem logRegLearner_prob_direct_witness :
    (([0, 1] : List Int) = rangeSupport 2) ∧ ((1 : Int) ∈ ([0, 1] : List Int)) ∧
    (List.length ((fun (_ : Unit) (_ : List ℚ) => ([1, 0] : List ℚ)) ()
      (identity_transformer [])) = 2) ∧
    (∃ p, (LogisticRegressionLearner.mk () [] [] [0, 1]
        identity_transformer).log_probability (fun _ _ => [1, 0]) [] 1 = some p ∧
      p ∈ ([1, 0] : List ℚ) ∧ 0 ≤ p ∧ p ≤ 1) := by
  refine ⟨by decide, by decide, rfl, ?_⟩
  exact logRegLearner_prob_direct Unit
    (LogisticRegressionLearner.mk () [] [] [0, 1] identity_transformer)
    (fun _ _ => [1, 0]) 2 [] 1 (by decide) (by decide) rfl
    (by
      intro p hp
      simp only [List.mem_cons, List.not_mem_nil, or_false] at hp
      rcases hp with rfl | rfl <;> norm_num)

/-- The fresh learner over the range support satisfies the invariant at `n`. -/
theorem WF_fresh_range (n : Nat) : (CountLearner.fresh (rangeSupport n)).WF n := by
  have h := WF_fresh (rangeSupport n)
  have hlen : (rangeSupport n).length = n := by simp [rangeSupport]
  rwa [hlen] at h

/-- Any state reached from the fresh learner keeps the invariant and the
declared support. -/
theorem reachable_WF {n : Nat} {obs : List (Context × Int)} {L : CountLearner}
    (hrun : (CountLearner.fresh (rangeSupport n)).observeAll obs = some L) :
    L.WF n ∧ L._support = rangeSupport n := by
  refine ⟨WF_observeAll (WF_fresh_range n) hrun, ?_⟩
  have h := observeAll_support hrun
  simpa [CountLearner.fresh] using h

/-- Claim C3 counterexample: a CountLearner may be constructed with an empty
declared support, and then the sum over the support of
`exp(log_probability)` is the empty sum 0, not 1. -/
theorem countLearner_sum_fails_empty_support :
    ¬ ∃ f : Int → ℚ,
      (∀ v ∈ (CountLearner.fresh []).support [],
        (CountLearner.fresh []).probability [] v = some (f v)) ∧
      (∀ v ∈ (CountLearner.fresh []).support [], 0 < f v) ∧
      (((CountLearner.fresh []).support []).map
        (fun v => Real.exp (Real.log ((f v : ℝ))))).sum = 1 := by
  rintro ⟨f, -, -, hsum⟩
  simp [CountLearner.fresh, CountLearner.support] at hsum

/-- Claim C3 (amended): for every CountLearner whose declared support is the
contiguous range `0..n-1` with `n ≥ 1` (as in every use in the repository),
in every reachable state — regardless of which observe calls have been made —
and for every context, `log_probability` is defined on the whole support with
strictly positive probabilities, and the sum over the support of
`exp(log_probability)` is exactly 1. -/
theorem countLearner_sum_to_one (n : Nat) (hn : 1 ≤ n)
    (obs : List (Context × Int)) (L : CountLearner) (c : Context)
    (hrun : (CountLearner.fresh (rangeSupport n)).observeAll obs = some L) :
    ∃ f : Int → ℚ,
      (∀ v ∈ L.support c, L.probability c v = some (f v)) ∧
      (∀ v ∈ L.support c, 0 < f v) ∧
      ((L.support c).map fun v => Real.exp (Real.log ((f v : ℝ)))).sum = 1 := by
  obtain ⟨hWF, hsupp⟩ := reachable_WF hrun
  have hsuppc : L.support c = rangeSupport n := by
    simp [CountLearner.support, hsupp]
  have hlen : (L.countsFor c).length = n := hWF.countsFor_length c
  have hposc : ∀ x ∈ L.countsFor c, 1 ≤ x := hWF.countsFor_pos c
  have hsle : n ≤ (L.countsFor c).sum := by
    have h := length_le_sum _ hposc
    omega
  have hS0 : ((L.countsFor c).sum : ℚ) ≠ 0 := by
    exact_mod_cast (by omega : (L.countsFor c).sum ≠ 0)
  have hfpos : ∀ k : Nat, k < n →
      0 < (((L.countsFor c).get? k).getD 0 : ℚ) / ((L.countsFor c).sum : ℚ) := by
    intro k hk
    obtain ⟨cnt, hg, hc1, -⟩ := probability_eq hWF c hk
    rw [hg]
    simp only [Option.getD_some]
    apply div_pos
    · exact_mod_cast (by omega : 0 < cnt)
    · exact_mod_cast (by omega : 0 < (L.countsFor c).sum)
  refine ⟨fun v =>
    (((L.countsFor c).get? v.toNat).getD 0 : ℚ) / ((L.countsFor c).sum : ℚ),
    ?_, ?_, ?_⟩
  · intro v hv
    rw [hsuppc] at hv
    obtain ⟨k, hk, rfl⟩ := mem_rangeSupport.mp hv
    obtain ⟨cnt, hg, hc1, heq⟩ := probability_eq hWF c hk
    rw [heq]
    simp only [Int.toNat_natCast, hg, Option.getD_some]
  · intro v hv
    rw [hsuppc] at hv
    obtain ⟨k, hk, rfl⟩ := mem_rangeSupport.mp hv
    simpa using hfpos k hk
  · rw [hsuppc]
    have hmapeq : (rangeSupport n).map (fun v => Real.exp (Real.log
          (((((L.countsFor c).get? v.toNat).getD 0 : ℚ)
            / ((L.countsFor c).sum : ℚ) : ℚ) : ℝ)))
        = (rangeSupport n).map (fun v =>
          (((((L.countsFor c).get? v.toNat).getD 0 : ℚ)
            / ((L.countsFor c).sum : ℚ) : ℚ) : ℝ)) := by
      apply List.map_congr_left
      intro v hv
      obtain ⟨k, hk, rfl⟩ := mem_rangeSupport.mp hv
      apply Real.exp_log
      have h := hfpos k hk
      simpa using (by exact_mod_cast h :
        (0:ℝ) < ((((L.countsFor c).get? ((k : Int)).toNat).getD 0 : ℚ)
          / ((L.countsFor c).sum : ℚ) : ℚ))
    rw [hmapeq]
    have hcast : (rangeSupport n).map (fun v =>
          (((((L.countsFor c).get? v.toNat).getD 0 : ℚ)
            / ((L.countsFor c).sum : ℚ) : ℚ) : ℝ))
        = ((rangeSupport n).map (fun v =>
          ((((L.countsFor c).get? v.toNat).getD 0 : ℚ)
            / ((L.countsFor c).sum : ℚ) : ℚ))).map (fun q : ℚ => (q : ℝ)) := by
      rw [List.map_map]
      rfl
    rw [hcast, ← Rat.cast_list_sum]
    have hQ : ((rangeSupport n).map (fun v =>
        ((((L.countsFor c).get? v.toNat).getD 0 : ℚ)
          / ((L.countsFor c).sum : ℚ) : ℚ))).sum = 1 := by
      unfold rangeSupport
      rw [List.map_map]
      have hcomp : ((fun v : Int =>
            ((((L.countsFor c).get? v.toNat).getD 0 : ℚ)
              / ((L.countsFor c).sum : ℚ) : ℚ)) ∘ (Nat.cast : Nat → Int))
          = fun k : Nat => (((L.countsFor c).get? k).getD 0 : ℚ)
              * ((L.countsFor c).sum : ℚ)⁻¹ := by
        funext k
        simp [Function.comp, div_eq_mul_inv]
      rw [hcomp, List.sum_map_mul_right, ← hlen, sum_map_range_getD,
        mul_inv_cancel₀ hS0]
    rw [hQ]
    norm_num

/-- Claim C3 witness: the fresh one-value learner. -/
theorem countLearner_sum_to_one_witness :
    (1 ≤ 1) ∧
    ((CountLearner.fresh (rangeSupport 1)).observeAll []
        = some (CountLearner.fresh (rangeSupport 1))) ∧
    (∃ f : Int → ℚ,
      (∀ v ∈ (CountLearner.fresh (rangeSupport 1)).support [],
        (CountLearner.fresh (rangeSupport 1)).probability [] v = some (f v)) ∧
      (∀ v ∈ (CountLearner.fresh (rangeSupport 1)).support [], 0 < f v) ∧
      (((CountLearner.fresh (rangeSupport 1)).support []).map
        fun v => Real.exp (Real.log ((f v : ℝ)))).sum = 1) :=
  ⟨le_refl 1, rfl,
    countLearner_sum_to_one 1 (le_refl 1) [] (CountLearner.fresh (rangeSupport 1)) [] rfl⟩

/-- Claim C5: in every reachable CountLearner state every count is at least 1
(the Laplace pseudocounts are never lost), so every in-range probability is
strictly positive, and for supports of size at least 2 it is also strictly
below 1, making `log_probability` finite and strictly negative. -/
theorem countLearner_smoothing (n : Nat) (obs : List (Context × Int))
    (L : CountLearner) (c : Context)
    (hrun : (CountLearner.fresh (rangeSupport n)).observeAll obs = some L) :
    (∀ x ∈ L.countsFor c, 1 ≤ x) ∧
    (∀ k : Nat, k < n → ∃ p : ℚ, L.probability c (k : Int) = some p ∧
      0 < p ∧ (2 ≤ n → p < 1 ∧ Real.log ((p : ℝ)) < 0)) := by
  obtain ⟨hWF, -⟩ := reachable_WF hrun
  refine ⟨hWF.countsFor_pos c, ?_⟩
  intro k hk
  obtain ⟨cnt, hg, hc1, heq⟩ := probability_eq hWF c hk
  have hlen := hWF.countsFor_length c
  have hposc := hWF.countsFor_pos c
  have hsle := length_le_sum _ hposc
  have hSpos : (0 : ℚ) < ((L.countsFor c).sum : ℚ) := by
    exact_mod_cast (by omega : 0 < (L.countsFor c).sum)
  have hppos : (0 : ℚ) < (cnt : ℚ) / ((L.countsFor c).sum : ℚ) :=
    div_pos (by exact_mod_cast (by omega : 0 < cnt)) hSpos
  refine ⟨_, heq, hppos, ?_⟩
  intro h2
  have hstrict : cnt < (L.countsFor c).sum := by
    have hb := getD_add_le_sum _ hposc k (by omega)
    rw [hg] at hb
    simp only [Option.getD_some] at hb
    omega
  have hp1 : (cnt : ℚ) / ((L.countsFor c).sum : ℚ) < 1 := by
    rw [div_lt_one hSpos]
    exact_mod_cast hstrict
  refine ⟨hp1, ?_⟩
  apply Real.log_neg
  · exact_mod_cast hppos
  · exact_mod_cast hp1

/-- Claim C5 witness: the fresh two-value learner. -/
theorem countLearner_smoothing_witness :
    ((CountLearner.fresh (rangeSupport 2)).observeAll []
        = some (CountLearner.fresh (rangeSupport 2))) ∧
    ((∀ x ∈ (CountLearner.fresh (rangeSupport 2)).countsFor [], 1 ≤ x) ∧
    (∀ k : Nat, k < 2 → ∃ p : ℚ,
      (CountLearner.fresh (rangeSupport 2)).probability [] (k : Int) = some p ∧
      0 < p ∧ (2 ≤ 2 → p < 1 ∧ Real.log ((p : ℝ)) < 0))) :=
  ⟨rfl, countLearner_smoothing 2 [] (CountLearner.fresh (rangeSupport 2)) [] rfl⟩

/-- Claim C6 counterexample: value `-1` is outside the support's index range
`0 ≤ v < 3`, yet `observe((0,), -1)` does not fail — Python's negative
indexing wraps around and increments the count of the last support value. -/
theorem countLearner_observe_negative_wraps :
    ¬ (0 ≤ (-1 : Int)) ∧
    (CountLearner.fresh (rangeSupport 3)).observe [0] (-1)
      = some (CountLearner.mk (rangeSupport 3) [([0], [1, 1, 2])]) :=
  ⟨by decide, by decide⟩

/-- Claim C6 (amended): in every reachable state of a CountLearner with a
size-`n` support, `observe(c, v)` fails (IndexError, the spec's
InvalidValueError) exactly when `v` is outside Python's index range
`[-n, n)`; for `0 ≤ v < n` it increments the count of `v` for context `c` by
one (and negative in-range values wrap instead of failing). -/
theorem countLearner_observe_amended (n : Nat) (obs : List (Context × Int))
    (L : CountLearner) (c : Context) (v : Int)
    (hrun : (CountLearner.fresh (rangeSupport n)).observeAll obs = some L) :
    (L.observe c v = none ↔ (v < -(n : Int) ∨ (n : Int) ≤ v)) ∧
    (0 ≤ v → v < (n : Int) → ∃ cnt L2,
      pyGet (L.countsFor c) v = some cnt ∧
      L.observe c v = some L2 ∧
      L2.countsFor c = (L.countsFor c).set v.toNat (cnt + 1)) := by
  obtain ⟨hWF, -⟩ := reachable_WF hrun
  have hlen := hWF.countsFor_length c
  constructor
  · have hiff : L.observe c v = none ↔ pyGet (L.countsFor c) v = none := by
      unfold CountLearner.observe
      cases hg : pyGet (L.countsFor c) v with
      | none => simp
      | some cnt =>
        rw [Option.some_bind, pySet_of_pyGet (cnt + 1) hg]
        simp
    rw [hiff, pyGet_eq_none_iff, hlen]
  · intro h0 hvn
    have hk : v.toNat < (L.countsFor c).length := by omega
    have hidx : pyIdx (L.countsFor c).length v = v := by
      unfold pyIdx
      rw [if_neg (by omega)]
    have hg : pyGet (L.countsFor c) v
        = some ((L.countsFor c).get ⟨v.toNat, hk⟩) := by
      unfold pyGet
      rw [hidx, if_pos h0]
      exact List.get?_eq_get hk
    refine ⟨(L.countsFor c).get ⟨v.toNat, hk⟩,
      CountLearner.mk L._support (storeCtx L.counts c
        ((L.countsFor c).set v.toNat ((L.countsFor c).get ⟨v.toNat, hk⟩ + 1))),
      hg, ?_, ?_⟩
    · unfold CountLearner.observe
      rw [hg, Option.some_bind, pySet_of_pyGet _ hg, Option.map_some', hidx]
    · simp [CountLearner.countsFor, lookupCtx_storeCtx_self]

/-- Claim C6 witness: the fresh three-value learner observing value 1. -/
theorem countLearner_observe_amended_witness :
    ((CountLearner.fresh (rangeSupport 3)).observeAll []
        = some (CountLearner.fresh (rangeSupport 3))) ∧
    (((CountLearner.fresh (rangeSupport 3)).observe [0] 1 = none ↔
        ((1 : Int) < -(3 : Int) ∨ (3 : Int) ≤ (1 : Int))) ∧
    (0 ≤ (1 : Int) → (1 : Int) < (3 : Int) → ∃ cnt L2,
      pyGet ((CountLearner.fresh (rangeSupport 3)).countsFor [0]) 1 = some cnt ∧
      (CountLearner.fresh (rangeSupport 3)).observe [0] 1 = some L2 ∧
      L2.countsFor [0]
        = (((CountLearner.fresh (rangeSupport 3)).countsFor [0]).set
            (1 : Int).toNat (cnt + 1)))) :=
  ⟨rfl, countLearner_observe_amended 3 [] (CountLearner.fresh (rangeSupport 3))
    [0] 1 rfl⟩

/-- Claim C10: for a CountLearner with a size-`n` support (`n ≥ 1`) and a
context never passed to `observe`, each in-range value has probability `1/n`
(so `log_probability = log(1/n)`: the unseen-context distribution is uniform),
and the defaultdict read performed by the query materializes the context's
all-ones pseudocount vector without changing any probability. -/
theorem countLearner_unseen_uniform (n : Nat) (hn : 1 ≤ n)
    (obs : List (Context × Int)) (L : CountLearner) (c : Context)
    (hrun : (CountLearner.fresh (rangeSupport n)).observeAll obs = some L)
    (hc : ∀ p ∈ obs, p.1 ≠ c) :
    lookupCtx L.counts c = none ∧
    lookupCtx (L.touch c).counts c = some (List.replicate n 1) ∧
    (∀ k : Nat, k < n → ∃ p : ℚ, L.probability c (k : Int) = some p ∧
      p = 1 / (n : ℚ) ∧ Real.log ((p : ℝ)) = Real.log (1 / (n : ℝ))) := by
  obtain ⟨hWF, hsupp⟩ := reachable_WF hrun
  have hnone : lookupCtx L.counts c = none :=
    observeAll_lookup_none hrun hc (by simp [CountLearner.fresh, lookupCtx])
  have hslen : L._support.length = n := hWF.1
  have hcf : L.countsFor c = List.replicate n 1 := by
    unfold CountLearner.countsFor
    rw [hnone, hslen]
    rfl
  refine ⟨hnone, ?_, ?_⟩
  · simp only [CountLearner.touch, hnone]
    rw [hslen, lookupCtx_storeCtx_self]
  · intro k hk
    obtain ⟨cnt, hg, -, heq⟩ := probability_eq hWF c hk
    have hcnt : cnt = 1 := by
      rw [hcf] at hg
      exact List.eq_of_mem_replicate (List.get?_mem hg)
    have hsum2 : (L.countsFor c).sum = n := by
      rw [hcf]
      simp
    refine ⟨_, heq, ?_, ?_⟩
    · rw [hcnt, hsum2]
      norm_num
    · rw [hcnt, hsum2]
      have hval : ((((1 : Nat) : ℚ) / ((n : Nat) : ℚ) : ℚ) : ℝ)
          = 1 / (n : ℝ) := by
        push_cast
        ring
      rw [hval]

/-- Claim C10 witness: the fresh one-value learner at an unseen context. -/
theorem countLearner_unseen_uniform_witness :
    (1 ≤ 1) ∧
    ((CountLearner.fresh (rangeSupport 1)).observeAll []
        = some (CountLearner.fresh (rangeSupport 1))) ∧
    (∀ p ∈ ([] : List (Context × Int)), p.1 ≠ ([] : Context)) ∧
    (lookupCtx (CountLearner.fresh (rangeSupport 1)).counts [] = none ∧
    lookupCtx ((CountLearner.fresh (rangeSupport 1)).touch []).counts []
        = some (List.replicate 1 1) ∧
    (∀ k : Nat, k < 1 → ∃ p : ℚ,
      (CountLearner.fresh (rangeSupport 1)).probability [] (k : Int) = some p ∧
      p = 1 / ((1 : Nat) : ℚ) ∧
      Real.log ((p : ℝ)) = Real.log (1 / ((1 : Nat) : ℝ)))) :=
  ⟨le_refl 1, rfl, by simp,
    countLearner_unseen_uniform 1 (le_refl 1) []
      (CountLearner.fresh (rangeSupport 1)) [] rfl (by simp)⟩
